import Mathlib

/-!
Shallow embedding of the PartB CPU-performance regression program:
the dense `Matrix` class (Matrix.cpp), the `LinearRegression` solver
(LinearRegression.cpp) and the numeric core of `Evaluator` (Evaluator.cpp).
IEEE doubles are modelled as exact rationals; every algorithm is translated
loop-for-loop from the C++ source.
-/

namespace PartB

/-- One labeled example (DataPoint.h): six integer hardware features and the
PRP target, all consumed by the regressor as numeric values. -/
structure DataPoint where
  myct : ℚ
  mmin : ℚ
  mmax : ℚ
  cach : ℚ
  chmin : ℚ
  chmax : ℚ
  prp : ℚ
deriving Repr, DecidableEq, Inhabited

/-- `DataPoint::getFeatureVector`: the six features in fixed order. -/
def DataPoint.getFeatureVector (p : DataPoint) : List ℚ :=
  [p.myct, p.mmin, p.mmax, p.cach, p.chmin, p.chmax]

/-- `DataPoint::getTarget`: the PRP column. -/
def DataPoint.getTarget (p : DataPoint) : ℚ := p.prp

/-- `Dataset` (Dataset.h) is a sequence of data points; only `size`,
`empty`, indexed access and `addDataPoint` (append) are used by the core. -/
abbrev Dataset := List DataPoint

/-- `Matrix` (Matrix.h): a rows×cols grid of doubles stored as nested rows. -/
structure Matrix where
  rows : ℕ
  cols : ℕ
  data : List (List ℚ)
deriving Repr, DecidableEq, Inhabited

/-- Read one entry of a nested-row store; out-of-range reads yield 0 (the
C++ accesses are always in range in the algorithms below). -/
def entry (d : List (List ℚ)) (i j : ℕ) : ℚ := (d.getD i []).getD j 0

/-- Build the nested-row store of a rows×cols matrix from an entry function,
the way the C++ loops fill a freshly zero-constructed result. -/
def buildData (rows cols : ℕ) (f : ℕ → ℕ → ℚ) : List (List ℚ) :=
  (List.range rows).map (fun i => (List.range cols).map (fun j => f i j))

/-- A matrix given by its dimensions and entry function. -/
def Matrix.ofFn (rows cols : ℕ) (f : ℕ → ℕ → ℚ) : Matrix :=
  ⟨rows, cols, buildData rows cols f⟩

/-- `Matrix::operator()` (const): entry read. -/
def Matrix.get (m : Matrix) (i j : ℕ) : ℚ := entry m.data i j

/-- `Matrix::isSquare`. -/
def Matrix.isSquare (m : Matrix) : Bool := m.rows == m.cols

/-- `Matrix::operator+`: elementwise sum (operands of the same shape). -/
def Matrix.add (a b : Matrix) : Matrix :=
  Matrix.ofFn a.rows a.cols (fun i j => a.get i j + b.get i j)

/-- `Matrix::operator*(Matrix)`: the standard triple-loop product. -/
def Matrix.mul (a b : Matrix) : Matrix :=
  Matrix.ofFn a.rows b.cols
    (fun i j => ((List.range a.cols).map (fun k => a.get i k * b.get k j)).sum)

/-- `Matrix::operator*(double)`: scalar scaling of every element. -/
def Matrix.scalarMul (a : Matrix) (s : ℚ) : Matrix :=
  Matrix.ofFn a.rows a.cols (fun i j => a.get i j * s)

/-- `Matrix::transpose`. -/
def Matrix.transpose (a : Matrix) : Matrix :=
  Matrix.ofFn a.cols a.rows (fun i j => a.get j i)

/-- `Matrix::identity`. -/
def Matrix.identity (n : ℕ) : Matrix :=
  Matrix.ofFn n n (fun i j => if i = j then 1 else 0)

/-- `Matrix::swapRows`. -/
def swapRowsData (d : List (List ℚ)) (r1 r2 : ℕ) : List (List ℚ) :=
  d.mapIdx (fun r row => if r = r1 then d.getD r2 [] else if r = r2 then d.getD r1 [] else row)

/-- `Matrix::multiplyRow`. -/
def multiplyRowData (d : List (List ℚ)) (r : ℕ) (factor : ℚ) : List (List ℚ) :=
  d.mapIdx (fun i row => if i = r then row.map (fun x => x * factor) else row)

/-- `Matrix::addRowMultiple`: target row += factor · source row. -/
def addRowMultipleData (d : List (List ℚ)) (src tgt : ℕ) (factor : ℚ) : List (List ℚ) :=
  d.mapIdx (fun i row =>
    if i = tgt then row.zipWith (fun t s => t + factor * s) (d.getD src []) else row)

/-- The 1e-10 pivot tolerance shared by `inverse` and `determinant`. -/
def EPSILON : ℚ := 1 / 10000000000

/-- `std::abs`, written as a branch so concrete runs reduce. -/
def absQ (x : ℚ) : ℚ := if x < 0 then -x else x

/-- The list of candidate rows `i+1, …, n-1` scanned by the pivot search. -/
def rowsBelow (i n : ℕ) : List ℕ := (List.range (n - (i + 1))).map (fun t => i + 1 + t)

/-- The partial-pivoting row choice: starting from row `i`, take any row
`k ∈ (i, n)` whose column-`i` entry has strictly larger absolute value. -/
def pivotRow (d : List (List ℚ)) (i n : ℕ) : ℕ :=
  (rowsBelow i n).foldl
    (fun maxRow k => if absQ (entry d k i) > absQ (entry d maxRow i) then k else maxRow) i

/-- The maximal absolute value in column `i` among rows `i, …, n-1`. -/
def colMaxAbs (d : List (List ℚ)) (i n : ℕ) : ℚ :=
  (rowsBelow i n).foldl (fun acc k => max acc (absQ (entry d k i))) (absQ (entry d i i))

/-- One elimination pass of `Matrix::inverse`: clear column `i` in every row
`k ≠ i` using factor `aug(k, i)` read just before the row update. -/
def gjEliminate (n i : ℕ) (aug : List (List ℚ)) : List (List ℚ) :=
  (List.range n).foldl
    (fun a k => if k ≠ i then addRowMultipleData a i k (-(entry a k i)) else a) aug

/-- One pivot-column step of `Matrix::inverse`: partial pivot search, the
singularity test against `EPSILON`, the conditional row swap, pivot-row
normalization, then full Gauss-Jordan elimination of column `i`. -/
def gjStep (n i : ℕ) (aug : List (List ℚ)) : Option (List (List ℚ)) :=
  let maxRow := pivotRow aug i n
  if absQ (entry aug maxRow i) < EPSILON then none
  else
    let aug1 := if maxRow ≠ i then swapRowsData aug i maxRow else aug
    let pivot := entry aug1 i i
    let aug2 := multiplyRowData aug1 i (1 / pivot)
    some (gjEliminate n i aug2)

/-- Run `fuel` consecutive indexed steps starting at index `i`, aborting as
soon as one fails — the shape of the `for (i = 0; i < n; ++i)` loops in
`Matrix::inverse` and `Matrix::determinant`. -/
def runSteps {α : Type} (step : ℕ → α → Option α) : ℕ → ℕ → α → Option α
  | _, 0, st => some st
  | i, fuel + 1, st =>
    match step i st with
    | none => none
    | some st2 => runSteps step (i + 1) fuel st2

/-- The augmented matrix `[A | I]` built at the start of `Matrix::inverse`. -/
def Matrix.augmentWithIdentity (m : Matrix) : List (List ℚ) :=
  buildData m.rows (2 * m.rows)
    (fun i j => if j < m.rows then m.get i j else if j = i + m.rows then 1 else 0)

/-- The right half of the reduced augmented matrix, extracted at the end of
`Matrix::inverse`. -/
def rightHalf (n : ℕ) (aug : List (List ℚ)) : List (List ℚ) :=
  buildData n n (fun i j => entry aug i (j + n))

/-- Failure conditions of `Matrix::inverse` / `Matrix::determinant`:
`std::invalid_argument` on a non-square input, `std::runtime_error` on a
singular one. -/
inductive MatrixError where
  | NotSquare
  | Singular
deriving Repr, DecidableEq

/-- `Matrix::inverse`: Gauss-Jordan elimination with partial pivoting on the
augmented matrix `[A | I]`. -/
def Matrix.inverse (m : Matrix) : Except MatrixError Matrix :=
  if m.isSquare = false then .error .NotSquare
  else
    match runSteps (gjStep m.rows) 0 m.rows m.augmentWithIdentity with
    | none => .error .Singular
    | some aug => .ok ⟨m.rows, m.rows, rightHalf m.rows aug⟩

/-- One pivot-column step of `Matrix::determinant` on the scratch state
(working copy, accumulated determinant): pivot search, the `EPSILON`
singularity test, sign flip on an actual row swap, multiplication by the
pivot, then elimination below the diagonal only. -/
def detStep (n i : ℕ) (st : List (List ℚ) × ℚ) : Option (List (List ℚ) × ℚ) :=
  let maxRow := pivotRow st.1 i n
  if absQ (entry st.1 maxRow i) < EPSILON then none
  else
    let temp1 := if maxRow ≠ i then swapRowsData st.1 i maxRow else st.1
    let det1 := if maxRow ≠ i then st.2 * (-1) else st.2
    let det2 := det1 * entry temp1 i i
    let temp2 := (rowsBelow i n).foldl
      (fun a k => addRowMultipleData a i k (-(entry a k i / entry a i i))) temp1
    some (temp2, det2)

/-- `Matrix::determinant`: square check, closed forms for 1×1 and 2×2,
otherwise elimination with partial pivoting on a scratch copy, returning 0
(a value, not an error) when a pivot falls below the tolerance. -/
def Matrix.determinant (m : Matrix) : Except MatrixError ℚ :=
  if m.isSquare = false then .error .NotSquare
  else if m.rows = 1 then .ok (m.get 0 0)
  else if m.rows = 2 then .ok (m.get 0 0 * m.get 1 1 - m.get 0 1 * m.get 1 0)
  else
    match runSteps (detStep m.rows) 0 m.rows (m.data, 1) with
    | none => .ok 0
    | some st => .ok st.2

/-- `LinearRegression` state (LinearRegression.h). `trainMSE` tracks the
radicand of the stored statistic: the source keeps `trainRMSE`, the square
root of this mean squared error, which is irrational over ℚ; no claim reads
its value. `testRMSE` and `rSquared` are set only by the constructor. -/
structure LinearRegression where
  coefficients : List ℚ
  isTrained : Bool
  trainMSE : ℚ
  testRMSE : ℚ
  rSquared : ℚ
deriving Repr, DecidableEq, Inhabited

/-- `LinearRegression::LinearRegression()`: six zero coefficients, untrained. -/
def LinearRegression.init : LinearRegression :=
  ⟨List.replicate 6 0, false, 0, 0, 0⟩

/-- The dot-product loop shared by `predict`: `Σ_{i<6} coefficients[i] * features[i]`. -/
def predictValue (coeffs features : List ℚ) : ℚ :=
  ((List.range 6).map (fun i => coeffs.getD i 0 * features.getD i 0)).sum

/-- `LinearRegression::createDesignMatrix`: n×6 matrix of feature rows. -/
def createDesignMatrix (data : Dataset) : Matrix :=
  Matrix.ofFn data.length 6
    (fun i j => ((data.getD i default).getFeatureVector).getD j 0)

/-- `LinearRegression::createTargetVector`. -/
def createTargetVector (data : Dataset) : List ℚ :=
  data.map (fun p => p.getTarget)

/-- The n×1 column matrix `y` built from the target vector inside `train`. -/
def colMatrix (v : List ℚ) : Matrix :=
  Matrix.ofFn v.length 1 (fun i _ => v.getD i 0)

/-- The accumulated mean squared error of `LinearRegression::calculateRMSE` /
`calculateMSE` (the source takes the square root for RMSE; both are called
only on a trained model with a non-empty set in the paths modelled here). -/
def calculateMSE (m : LinearRegression) (data : Dataset) : ℚ :=
  (data.map
    (fun p => (predictValue m.coefficients p.getFeatureVector - p.getTarget) ^ 2)).sum
    / (data.length : ℚ)

/-- The coefficient extraction shared by both training paths: compute
`θ = inv · (Xᵗ y)` and read its first six entries. -/
def trainCoeffs (data : Dataset) (inv : Matrix) : List ℚ :=
  (List.range 6).map (fun i =>
    (inv.mul ((createDesignMatrix data).transpose.mul
      (colMatrix (createTargetVector data)))).get i 0)

/-- The state update on training success shared by both training paths:
install the coefficients, set the trained flag, then record the training
error statistic over the training set. -/
def fitModel (model : LinearRegression) (data : Dataset) (coeffs : List ℚ) : LinearRegression :=
  { model with
    coefficients := coeffs
    isTrained := true
    trainMSE := calculateMSE { model with coefficients := coeffs, isTrained := true } data }

/-- `LinearRegression::train`: normal equation `θ = (XᵗX)⁻¹ Xᵗ y`. Returns
the C++ bool together with the post-call model state; the empty-input guard
and the catch of the Singular exception both return `false` with the state
untouched. -/
def train (model : LinearRegression) (trainData : Dataset) : Bool × LinearRegression :=
  if trainData.isEmpty then (false, model)
  else
    match ((createDesignMatrix trainData).transpose.mul (createDesignMatrix trainData)).inverse with
    | .error _ => (false, model)
    | .ok XtXinv => (true, fitModel model trainData (trainCoeffs trainData XtXinv))

/-- `LinearRegression::trainWithRegularization`: identical pipeline with
`(XᵗX + λI)⁻¹` in place of `(XᵗX)⁻¹`. -/
def trainWithRegularization (model : LinearRegression) (trainData : Dataset)
    (lambda : ℚ) : Bool × LinearRegression :=
  if trainData.isEmpty then (false, model)
  else
    match (((createDesignMatrix trainData).transpose.mul (createDesignMatrix trainData)).add
        ((Matrix.identity
          ((createDesignMatrix trainData).transpose.mul (createDesignMatrix trainData)).rows).scalarMul
          lambda)).inverse with
    | .error _ => (false, model)
    | .ok regInv => (true, fitModel model trainData (trainCoeffs trainData regInv))

/-- Failure conditions of `LinearRegression::predict`:
`std::runtime_error` before training, `std::invalid_argument` on a feature
sequence whose length is not 6. -/
inductive PredictError where
  | NotTrained
  | InvalidFeatureCount
deriving Repr, DecidableEq

/-- `LinearRegression::predict(vector<double>)`: trained-state check, the
length-6 check, then the dot product with the coefficient vector. -/
def predict (m : LinearRegression) (features : List ℚ) : Except PredictError ℚ :=
  if m.isTrained = false then .error .NotTrained
  else if features.length ≠ 6 then .error .InvalidFeatureCount
  else .ok (predictValue m.coefficients features)

/-- The `totalSumSquares` accumulator of `calculateRSquared`: squared
deviations of the supplied set's actual values from their own mean. -/
def modelTSS (data : Dataset) : ℚ :=
  (data.map (fun p =>
    (p.getTarget - (data.map (fun q => q.getTarget)).sum / (data.length : ℚ)) ^ 2)).sum

/-- The `residualSumSquares` accumulator of `calculateRSquared`: squared
deviations of the actual values from the model's predictions. -/
def modelRSS (m : LinearRegression) (data : Dataset) : ℚ :=
  (data.map (fun p =>
    (p.getTarget - predictValue m.coefficients p.getFeatureVector) ^ 2)).sum

/-- `LinearRegression::calculateRSquared`: TSS against the mean of the
supplied set's actual values, RSS against the model's predictions, and the
`TSS = 0 → 1.0` convention. -/
def calculateRSquared (m : LinearRegression) (data : Dataset) : Except PredictError ℚ :=
  if m.isTrained = false then .error .NotTrained
  else if modelTSS data = 0 then .ok 1
  else .ok (1 - modelRSS m data / modelTSS data)

/-- The `std::invalid_argument` guard of the Evaluator metric functions. -/
inductive EvalError where
  | InvalidArgument
deriving Repr, DecidableEq

/-- The `totalSumSquares` accumulator of `Evaluator::calculateR2`. -/
def totalSumSquares (actual : List ℚ) : ℚ :=
  (actual.map (fun a => (a - actual.sum / (actual.length : ℚ)) ^ 2)).sum

/-- The `residualSumSquares` accumulator of `Evaluator::calculateR2`,
pairing the sequences index by index. -/
def residualSumSquares (actual predicted : List ℚ) : ℚ :=
  ((actual.zip predicted).map (fun q => (q.1 - q.2) ^ 2)).sum

/-- `Evaluator::calculateR2` over parallel actual/predicted sequences. -/
def calculateR2 (actual predicted : List ℚ) : Except EvalError ℚ :=
  if actual.length != predicted.length || actual.isEmpty then .error .InvalidArgument
  else if totalSumSquares actual = 0 then .ok 1
  else .ok (1 - residualSumSquares actual predicted / totalSumSquares actual)

/-- The single accumulation pass of `Evaluator::calculateMAPE`: the running
percentage-error sum and the running count of entries with `actual ≠ 0`. -/
def mapeAcc (actual predicted : List ℚ) : ℚ × ℕ :=
  (actual.zip predicted).foldl
    (fun acc q => if q.1 ≠ 0 then (acc.1 + |(q.1 - q.2) / q.1| * 100, acc.2 + 1) else acc)
    ((0 : ℚ), (0 : ℕ))

/-- `Evaluator::calculateMAPE`: the accumulation pass, then `sum / count`,
or 0 when no entry counted. -/
def calculateMAPE (actual predicted : List ℚ) : Except EvalError ℚ :=
  if actual.length != predicted.length || actual.isEmpty then .error .InvalidArgument
  else .ok (if 0 < (mapeAcc actual predicted).2
    then (mapeAcc actual predicted).1 / ((mapeAcc actual predicted).2 : ℚ) else 0)

/-- The `std::invalid_argument` thrown by `LinearRegression::crossValidate`
when the fold count exceeds the dataset size. -/
inductive CVError where
  | TooFewExamples
deriving Repr, DecidableEq

/-- The fold-membership test of `LinearRegression::crossValidate`: data
index `i` belongs to validation fold `fold` (out of `folds`, over `n`
examples, `foldSize = n / folds`) exactly when the source's branch puts
`data[i]` into `validSet`. -/
def isValidIdx (n folds fold i : ℕ) : Bool :=
  let foldSize := n / folds
  (decide (fold * foldSize ≤ i) && decide (i < (fold + 1) * foldSize)
      && decide (fold < folds - 1))
    || (fold == folds - 1 && decide (fold * foldSize ≤ i))

/-- The validation set of one cross-validation fold: the data points whose
indices satisfy the fold-membership test, in input order. -/
def validSet (data : Dataset) (folds fold : ℕ) : Dataset :=
  ((List.range data.length).filter (fun i => isValidIdx data.length folds fold i)).map
    (fun i => data.getD i default)

/-- The training set of one cross-validation fold: all remaining data
points, in input order. -/
def trainSetOf (data : Dataset) (folds fold : ℕ) : Dataset :=
  ((List.range data.length).filter (fun i => !isValidIdx data.length folds fold i)).map
    (fun i => data.getD i default)

/-- The `foldRMSEs` vector of `LinearRegression::crossValidate`: the fold
loop, collecting one value per fold whose evaluation succeeds and
swallowing the others. The per-fold evaluation `foldEval trainSet validSet`
is a parameter: in the source it trains a fresh model on `trainSet` and,
when training succeeds, records its RMSE — a real square root, hence
irrational over ℚ — against `validSet`; `none` models a swallowed training
failure. -/
def foldRMSEs (foldEval : Dataset → Dataset → Option ℚ) (data : Dataset)
    (folds : ℕ) : List ℚ :=
  (List.range folds).foldl
    (fun acc fold =>
      match foldEval (trainSetOf data folds fold) (validSet data folds fold) with
      | some r => acc ++ [r]
      | none => acc) []

/-- `LinearRegression::crossValidate`, parametric in the per-fold
evaluation (see `foldRMSEs`). Everything else is the source verbatim: the
size guard that throws `invalid_argument`, the fold loop, the `-1.0`
sentinel for zero recorded folds, and the arithmetic mean otherwise. -/
def crossValidate (foldEval : Dataset → Dataset → Option ℚ) (data : Dataset)
    (folds : ℕ) : Except CVError ℚ :=
  if data.length < folds then .error .TooFewExamples
  else if (foldRMSEs foldEval data folds).isEmpty then .ok (-1)
  else .ok ((foldRMSEs foldEval data folds).sum / ((foldRMSEs foldEval data folds).length : ℚ))

/-- The successfully recorded per-fold values, fold by fold in order. -/
def recordedRMSEs (foldEval : Dataset → Dataset → Option ℚ) (data : Dataset)
    (folds : ℕ) : List ℚ :=
  (List.range folds).filterMap
    (fun fold => foldEval (trainSetOf data folds fold) (validSet data folds fold))

/-! Supporting lemmas. -/

/-- A step loop returns `none` exactly when some prefix of the run succeeds
and the next step fails. -/
theorem runSteps_eq_none_iff {α : Type} (step : ℕ → α → Option α) :
    ∀ (fuel i : ℕ) (st : α),
      runSteps step i fuel st = none ↔
        ∃ t, t < fuel ∧ ∃ a, runSteps step i t st = some a ∧ step (i + t) a = none := by
  intro fuel
  induction fuel with
  | zero => intro i st; simp [runSteps]
  | succ f ih =>
    intro i st
    cases hstep : step i st with
    | none =>
      simp only [runSteps, hstep]
      constructor
      · intro _
        exact ⟨0, Nat.succ_pos f, st, by simp [runSteps], by simpa using hstep⟩
      · intro _; trivial
    | some a0 =>
      simp only [runSteps, hstep]
      rw [ih (i + 1) a0]
      constructor
      · rintro ⟨t, ht, a, hrun, hfail⟩
        refine ⟨t + 1, Nat.succ_lt_succ ht, a, ?_, ?_⟩
        · simp [runSteps, hstep, hrun]
        · have : i + 1 + t = i + (t + 1) := by omega
          rw [← this]; exact hfail
      · rintro ⟨t, ht, a, hrun, hfail⟩
        cases t with
        | zero =>
          simp only [runSteps] at hrun
          cases hrun
          rw [Nat.add_zero] at hfail
          rw [hfail] at hstep
          cases hstep
        | succ u =>
          refine ⟨u, Nat.lt_of_succ_lt_succ ht, a, ?_, ?_⟩
          · simpa [runSteps, hstep] using hrun
          · have : i + 1 + u = i + (u + 1) := by omega
            rw [this]; exact hfail

/-- The entry the partial-pivot search settles on realizes the maximal
absolute value of column `i` among rows `i, …, n-1`. -/
theorem pivot_fold (d : List (List ℚ)) (i : ℕ) (L : List ℕ) :
    ∀ mr : ℕ,
      absQ (entry d
          (L.foldl (fun maxRow k =>
            if absQ (entry d k i) > absQ (entry d maxRow i) then k else maxRow) mr) i)
        = L.foldl (fun acc k => max acc (absQ (entry d k i))) (absQ (entry d mr i)) := by
  induction L with
  | nil => intro mr; rfl
  | cons k L ih =>
    intro mr
    simp only [List.foldl_cons]
    rw [ih]
    congr 1
    by_cases h : absQ (entry d k i) > absQ (entry d mr i)
    · rw [if_pos h, max_eq_right h.le]
    · rw [if_neg h, max_eq_left (not_lt.mp h)]

/-- The entry the partial-pivot search settles on realizes the maximal
absolute value of column `i` among rows `i, …, n-1`. -/
theorem pivotRow_absQ (d : List (List ℚ)) (i n : ℕ) :
    absQ (entry d (pivotRow d i n) i) = colMaxAbs d i n :=
  pivot_fold d i (rowsBelow i n) i

/-- A Gauss-Jordan step fails exactly when the column maximum among the
remaining rows is below the tolerance. -/
theorem gjStep_eq_none_iff (n i : ℕ) (aug : List (List ℚ)) :
    gjStep n i aug = none ↔ colMaxAbs aug i n < EPSILON := by
  rw [← pivotRow_absQ]
  by_cases h : absQ (entry aug (pivotRow aug i n) i) < EPSILON <;> simp [gjStep, h]

/-- A determinant elimination step fails exactly when the column maximum
among the remaining rows of the scratch copy is below the tolerance. -/
theorem detStep_eq_none_iff (n i : ℕ) (st : List (List ℚ) × ℚ) :
    detStep n i st = none ↔ colMaxAbs st.1 i n < EPSILON := by
  rw [← pivotRow_absQ]
  by_cases h : absQ (entry st.1 (pivotRow st.1 i n) i) < EPSILON <;> simp [detStep, h]

/-- `runSteps` over the Gauss-Jordan steps aborts somewhere during the
`m.rows` pivot columns exactly when some prefix of the run succeeds and the
next column's maximal absolute value among the remaining rows of the
working matrix is below the tolerance. -/
theorem gjRun_eq_none_iff (m : Matrix) :
    runSteps (gjStep m.rows) 0 m.rows m.augmentWithIdentity = none ↔
      ∃ t, t < m.rows ∧ ∃ a, runSteps (gjStep m.rows) 0 t m.augmentWithIdentity = some a ∧
        colMaxAbs a t m.rows < EPSILON := by
  rw [runSteps_eq_none_iff (gjStep m.rows) m.rows 0 m.augmentWithIdentity]
  simp only [Nat.zero_add, gjStep_eq_none_iff]

/-- C3: `Matrix::inverse` fails with `NotSquare` on every non-square
matrix; on a square matrix it fails with `Singular` exactly when, at some
pivot column `t`, the maximal absolute value in column `t` among rows `≥ t`
of the working augmented matrix is below the tolerance 1e-10 — as happens
for `[[1, 2], [2, 4]]` — and no result is returned in that case; otherwise
it returns the right half of the Gauss-Jordan-reduced augmented matrix
`[A | I]`. -/
theorem inverse_spec :
    (∀ m : Matrix, m.isSquare = false → m.inverse = .error .NotSquare)
  ∧ (∀ m : Matrix, m.isSquare = true →
      (m.inverse = .error .Singular ↔
        ∃ t, t < m.rows ∧ ∃ a, runSteps (gjStep m.rows) 0 t m.augmentWithIdentity = some a ∧
          colMaxAbs a t m.rows < EPSILON))
  ∧ Matrix.inverse ⟨2, 2, [[1, 2], [2, 4]]⟩ = .error .Singular
  ∧ (∀ (m : Matrix) (aug : List (List ℚ)), m.isSquare = true →
      runSteps (gjStep m.rows) 0 m.rows m.augmentWithIdentity = some aug →
      m.inverse = .ok ⟨m.rows, m.rows, rightHalf m.rows aug⟩) := by
  refine ⟨?_, ?_, ?_, ?_⟩
  · intro m h; simp [Matrix.inverse, h]
  · intro m h
    cases hrun : runSteps (gjStep m.rows) 0 m.rows m.augmentWithIdentity with
    | none =>
      have h1 : m.inverse = .error .Singular := by simp [Matrix.inverse, h, hrun]
      exact iff_of_true h1 ((gjRun_eq_none_iff m).mp hrun)
    | some aug =>
      have h1 : m.inverse = .ok ⟨m.rows, m.rows, rightHalf m.rows aug⟩ := by
        simp [Matrix.inverse, h, hrun]
      refine iff_of_false (by rw [h1]; exact fun hc => by cases hc) (fun hex => ?_)
      have := (gjRun_eq_none_iff m).mpr hex
      rw [hrun] at this
      cases this
  · norm_num [Matrix.inverse, Matrix.isSquare, Matrix.augmentWithIdentity, Matrix.get, buildData,
      runSteps, gjStep, pivotRow, rowsBelow, entry, absQ, EPSILON, swapRowsData, multiplyRowData,
      addRowMultipleData, gjEliminate, List.range_succ, List.mapIdx_cons, List.mapIdx_nil]
  · intro m aug h hrun; simp [Matrix.inverse, h, hrun]

/-- C3 witness: the theorem applied to a concrete non-square matrix. -/
theorem inverse_spec_witness :
    Matrix.inverse ⟨2, 3, [[1, 2, 3], [4, 5, 6]]⟩ = .error .NotSquare :=
  inverse_spec.1 ⟨2, 3, [[1, 2, 3], [4, 5, 6]]⟩ rfl

/-- `runSteps` over the determinant elimination steps aborts during the
`m.rows` pivot columns exactly when some prefix of the run succeeds and the
next column's maximal absolute value among the remaining rows of the
scratch copy is below the tolerance. -/
theorem detRun_eq_none_iff (m : Matrix) :
    runSteps (detStep m.rows) 0 m.rows (m.data, (1 : ℚ)) = none ↔
      ∃ t, t < m.rows ∧ ∃ st, runSteps (detStep m.rows) 0 t (m.data, (1 : ℚ)) = some st ∧
        colMaxAbs st.1 t m.rows < EPSILON := by
  rw [runSteps_eq_none_iff (detStep m.rows) m.rows 0 (m.data, (1 : ℚ))]
  simp only [Nat.zero_add, detStep_eq_none_iff]

/-- C4: `Matrix::determinant` fails with `NotSquare` on non-square input;
a 1×1 matrix yields its single entry and a 2×2 matrix yields `ad − bc`;
any larger square matrix runs partial-pivoting elimination on a scratch
copy (`detStep` multiplies the accumulated pivot product by −1 on every
actual row swap), yields exactly 0 — a value, not an error — as soon as
some pivot column's maximal absolute value among the remaining rows falls
below the 1e-10 tolerance, and otherwise yields the accumulated product;
the receiver is untouched (`determinant` is a pure function of `m`). The
final conjunct exercises a 3×3 run whose single row swap flips the sign. -/
theorem determinant_spec :
    (∀ m : Matrix, m.isSquare = false → m.determinant = .error .NotSquare)
  ∧ (∀ m : Matrix, m.isSquare = true → m.rows = 1 → m.determinant = .ok (m.get 0 0))
  ∧ (∀ m : Matrix, m.isSquare = true → m.rows = 2 →
      m.determinant = .ok (m.get 0 0 * m.get 1 1 - m.get 0 1 * m.get 1 0))
  ∧ (∀ m : Matrix, m.isSquare = true → 3 ≤ m.rows →
      (∃ t, t < m.rows ∧ ∃ st, runSteps (detStep m.rows) 0 t (m.data, (1 : ℚ)) = some st ∧
          colMaxAbs st.1 t m.rows < EPSILON) →
      m.determinant = .ok 0)
  ∧ (∀ m : Matrix, m.isSquare = true → 3 ≤ m.rows →
      ∀ st, runSteps (detStep m.rows) 0 m.rows (m.data, (1 : ℚ)) = some st →
        m.determinant = .ok st.2)
  ∧ Matrix.determinant ⟨3, 3, [[0, 1, 0], [1, 0, 0], [0, 0, 2]]⟩ = .ok (-2) := by
  refine ⟨?_, ?_, ?_, ?_, ?_, ?_⟩
  · intro m h; simp [Matrix.determinant, h]
  · intro m h h1; simp [Matrix.determinant, h, h1]
  · intro m h h2; simp [Matrix.determinant, h, h2]
  · intro m h h3 hex
    have hrun := (detRun_eq_none_iff m).mpr hex
    have hne1 : ¬ m.rows = 1 := by omega
    have hne2 : ¬ m.rows = 2 := by omega
    simp [Matrix.determinant, h, hne1, hne2, hrun]
  · intro m h h3 st hrun
    have hne1 : ¬ m.rows = 1 := by omega
    have hne2 : ¬ m.rows = 2 := by omega
    simp [Matrix.determinant, h, hne1, hne2, hrun]
  · norm_num [Matrix.determinant, Matrix.isSquare, Matrix.get, runSteps, detStep, pivotRow,
      rowsBelow, entry, absQ, EPSILON, swapRowsData, addRowMultipleData, List.range_succ,
      List.mapIdx_cons, List.mapIdx_nil]

/-- C4 witness: the theorem applied to a concrete non-square matrix. -/
theorem determinant_spec_witness :
    Matrix.determinant ⟨1, 2, [[1, 2]]⟩ = .error .NotSquare :=
  determinant_spec.1 ⟨1, 2, [[1, 2]]⟩ rfl

/-- Reading a mapped range inside its bounds gives the mapped function. -/
theorem getD_map_range {β : Type} (r i : ℕ) (g : ℕ → β) (d : β) (hi : i < r) :
    (((List.range r).map g).getD i d) = g i := by
  rw [List.getD_eq_getElem?_getD, List.getElem?_map, List.getElem?_range hi]
  rfl

/-- Reading a mapped range outside its bounds gives the default. -/
theorem getD_map_range_oob {β : Type} (r i : ℕ) (g : ℕ → β) (d : β) (hi : ¬ i < r) :
    (((List.range r).map g).getD i d) = d := by
  rw [List.getD_eq_default]
  simpa using Nat.le_of_not_lt hi

/-- Reading a built matrix inside its bounds gives the entry function. -/
theorem entry_buildData (r c : ℕ) (f : ℕ → ℕ → ℚ) (i j : ℕ) (hi : i < r) (hj : j < c) :
    entry (buildData r c f) i j = f i j := by
  unfold entry buildData
  rw [getD_map_range r i _ _ hi, getD_map_range c j _ _ hj]

/-- Reading a built matrix outside its row range gives the default 0. -/
theorem entry_buildData_row_oob (r c : ℕ) (f : ℕ → ℕ → ℚ) (i j : ℕ) (hi : ¬ i < r) :
    entry (buildData r c f) i j = 0 := by
  unfold entry buildData
  rw [getD_map_range_oob r i _ _ hi]
  simp

/-- Reading a built matrix outside its column range gives the default 0. -/
theorem entry_buildData_col_oob (r c : ℕ) (f : ℕ → ℕ → ℚ) (i j : ℕ) (hj : ¬ j < c) :
    entry (buildData r c f) i j = 0 := by
  by_cases hi : i < r
  · unfold entry buildData
    rw [getD_map_range r i _ _ hi, getD_map_range_oob c j _ _ hj]
  · exact entry_buildData_row_oob r c f i j hi

/-- Scaling any matrix by the scalar 0 zeroes every readable entry. -/
theorem get_scalarMul_zero (b : Matrix) (i j : ℕ) : (b.scalarMul 0).get i j = 0 := by
  unfold Matrix.scalarMul Matrix.ofFn Matrix.get
  by_cases hi : i < b.rows
  · by_cases hj : j < b.cols
    · rw [entry_buildData _ _ _ _ _ hi hj, mul_zero]
    · exact entry_buildData_col_oob _ _ _ _ _ hj
  · exact entry_buildData_row_oob _ _ _ _ _ hi

/-- Built matrices with pointwise-equal entry functions coincide. -/
theorem buildData_congr (r c : ℕ) (f g : ℕ → ℕ → ℚ)
    (h : ∀ i, i < r → ∀ j, j < c → f i j = g i j) : buildData r c f = buildData r c g := by
  unfold buildData
  refine List.map_congr_left (fun i hi => ?_)
  refine List.map_congr_left (fun j hj => ?_)
  exact h i (List.mem_range.mp hi) j (List.mem_range.mp hj)

/-- Adding a 0-scaled matrix to a freshly built matrix changes nothing:
the elementwise sum re-reads every in-range entry and adds 0. -/
theorem ofFn_add_scalarMul_zero (r c : ℕ) (f : ℕ → ℕ → ℚ) (b : Matrix) :
    (Matrix.ofFn r c f).add (b.scalarMul 0) = Matrix.ofFn r c f := by
  unfold Matrix.add
  show Matrix.ofFn r c _ = Matrix.ofFn r c f
  unfold Matrix.ofFn
  congr 1
  apply buildData_congr
  intro i hi j hj
  rw [get_scalarMul_zero, add_zero]
  show entry (buildData r c f) i j = f i j
  exact entry_buildData r c f i j hi hj

/-- Specialization to a product matrix, the shape arising in training. -/
theorem mul_add_scalarMul_zero (a b c : Matrix) :
    (a.mul b).add (c.scalarMul 0) = a.mul b := by
  unfold Matrix.mul
  exact ofFn_add_scalarMul_zero _ _ _ _

/-- With `λ = 0` the ridge pipeline is the ordinary pipeline: the
regularized matrix `XᵗX + 0·I` equals `XᵗX` exactly, so the whole result
(flag and post-call state) coincides. -/
theorem trainWithRegularization_zero_eq (m : LinearRegression) (data : Dataset) :
    trainWithRegularization m data 0 = train m data := by
  unfold trainWithRegularization train
  rw [mul_add_scalarMul_zero]

/-- C5: for every non-empty dataset, ridge training with `λ = 0` produces
the same success/failure outcome and the same coefficient vector as
ordinary training. -/
theorem trainWithRegularization_zero_degenerates (m : LinearRegression) (data : Dataset)
    (h : data ≠ []) :
    (trainWithRegularization m data 0).1 = (train m data).1
  ∧ (trainWithRegularization m data 0).2.coefficients = (train m data).2.coefficients := by
  rw [trainWithRegularization_zero_eq]
  exact ⟨rfl, rfl⟩

/-- C5 witness: the theorem applied to a concrete one-example dataset. -/
theorem trainWithRegularization_zero_degenerates_witness :
    (trainWithRegularization LinearRegression.init [⟨1, 1, 1, 1, 1, 1, 1⟩] 0).1
        = (train LinearRegression.init [⟨1, 1, 1, 1, 1, 1, 1⟩]).1
  ∧ (trainWithRegularization LinearRegression.init [⟨1, 1, 1, 1, 1, 1, 1⟩] 0).2.coefficients
        = (train LinearRegression.init [⟨1, 1, 1, 1, 1, 1, 1⟩]).2.coefficients :=
  trainWithRegularization_zero_degenerates LinearRegression.init [⟨1, 1, 1, 1, 1, 1, 1⟩]
    (by simp)

/-- When `train` reports failure the returned state is the old state. -/
theorem train_fail_eq (m : LinearRegression) (data : Dataset)
    (h : (train m data).1 = false) : (train m data).2 = m := by
  by_cases he : data.isEmpty = true
  · simp [train, he]
  · cases hinv : ((createDesignMatrix data).transpose.mul (createDesignMatrix data)).inverse with
    | error e => simp [train, he, hinv]
    | ok inv => simp [train, he, hinv] at h

/-- When `trainWithRegularization` reports failure the returned state is
the old state. -/
theorem trainWithRegularization_fail_eq (m : LinearRegression) (data : Dataset) (lam : ℚ)
    (h : (trainWithRegularization m data lam).1 = false) :
    (trainWithRegularization m data lam).2 = m := by
  by_cases he : data.isEmpty = true
  · simp [trainWithRegularization, he]
  · cases hinv : (((createDesignMatrix data).transpose.mul (createDesignMatrix data)).add
        ((Matrix.identity
          ((createDesignMatrix data).transpose.mul (createDesignMatrix data)).rows).scalarMul
          lam)).inverse with
    | error e => simp [trainWithRegularization, he, hinv]
    | ok inv => simp [trainWithRegularization, he, hinv] at h

/-- C10: both training entry points are atomic on failure — whenever the
call reports `false` (empty dataset or singular matrix), the trained flag
and the coefficient vector keep exactly the values they had before. -/
theorem train_atomic_on_failure (m : LinearRegression) (data : Dataset) (lam : ℚ) :
    ((train m data).1 = false →
      (train m data).2.isTrained = m.isTrained ∧
      (train m data).2.coefficients = m.coefficients)
  ∧ ((trainWithRegularization m data lam).1 = false →
      (trainWithRegularization m data lam).2.isTrained = m.isTrained ∧
      (trainWithRegularization m data lam).2.coefficients = m.coefficients) := by
  constructor
  · intro h; rw [train_fail_eq m data h]; exact ⟨rfl, rfl⟩
  · intro h; rw [trainWithRegularization_fail_eq m data lam h]; exact ⟨rfl, rfl⟩

/-- C10 witness: a previously trained model stays trained with its old
coefficients when retraining on an empty dataset fails. -/
theorem train_atomic_on_failure_witness :
    (train ⟨[9, 8, 7, 6, 5, 4], true, 5, 0, 0⟩ []).2.isTrained = true
  ∧ (train ⟨[9, 8, 7, 6, 5, 4], true, 5, 0, 0⟩ []).2.coefficients = [9, 8, 7, 6, 5, 4] :=
  (train_atomic_on_failure ⟨[9, 8, 7, 6, 5, 4], true, 5, 0, 0⟩ [] 0).1 rfl

/-- C6: on a trained model, `predict` over a 6-element feature sequence is
exactly the dot product `Σ coefficient_i · feature_i`, with no intercept
term added. -/
theorem predict_is_dot_product (m : LinearRegression) (f0 f1 f2 f3 f4 f5 : ℚ)
    (h : m.isTrained = true) :
    predict m [f0, f1, f2, f3, f4, f5]
      = .ok (m.coefficients.getD 0 0 * f0 + m.coefficients.getD 1 0 * f1
           + m.coefficients.getD 2 0 * f2 + m.coefficients.getD 3 0 * f3
           + m.coefficients.getD 4 0 * f4 + m.coefficients.getD 5 0 * f5) := by
  have hr : List.range 6 = [0, 1, 2, 3, 4, 5] := rfl
  simp [predict, h, predictValue, hr]
  ring

/-- C6 witness: the theorem applied to a concrete trained model. -/
theorem predict_is_dot_product_witness :
    predict ⟨[1, 2, 3, 4, 5, 6], true, 0, 0, 0⟩ [10, 20, 30, 40, 50, 60]
      = .ok ((1 : ℚ) * 10 + 2 * 20 + 3 * 30 + 4 * 40 + 5 * 50 + 6 * 60) :=
  predict_is_dot_product ⟨[1, 2, 3, 4, 5, 6], true, 0, 0, 0⟩ 10 20 30 40 50 60 rfl

/-- C7: `predict` fails with `NotTrained` on every input before training;
on a trained model it fails with `InvalidFeatureCount` exactly on feature
sequences whose length is not 6, and succeeds (neither error) on length-6
sequences. -/
theorem predict_error_conditions :
    (∀ (m : LinearRegression) (features : List ℚ), m.isTrained = false →
        predict m features = .error .NotTrained)
  ∧ (∀ (m : LinearRegression) (features : List ℚ), m.isTrained = true →
        features.length ≠ 6 → predict m features = .error .InvalidFeatureCount)
  ∧ (∀ (m : LinearRegression) (features : List ℚ), m.isTrained = true →
        features.length = 6 → predict m features = .ok (predictValue m.coefficients features)) := by
  refine ⟨?_, ?_, ?_⟩
  · intro m features h; simp [predict, h]
  · intro m features h h6; simp [predict, h, h6]
  · intro m features h h6; simp [predict, h, h6]

/-- C7 witness: the untrained model rejects any input with `NotTrained`;
a trained model rejects a 5-element sequence with `InvalidFeatureCount`. -/
theorem predict_error_conditions_witness :
    predict LinearRegression.init [1, 2, 3, 4, 5] = .error .NotTrained
  ∧ predict ⟨[1, 2, 3, 4, 5, 6], true, 0, 0, 0⟩ [1, 2, 3, 4, 5]
      = .error .InvalidFeatureCount :=
  ⟨predict_error_conditions.1 LinearRegression.init [1, 2, 3, 4, 5] rfl,
   predict_error_conditions.2.1 ⟨[1, 2, 3, 4, 5, 6], true, 0, 0, 0⟩ [1, 2, 3, 4, 5] rfl
     (by decide)⟩

/-- Zipping a list with itself pairs every element with itself. -/
theorem zip_self_map (xs : List ℚ) : xs.zip xs = xs.map (fun x => (x, x)) := by
  induction xs with
  | nil => rfl
  | cons a l ih => simp [ih]

/-- The residual sum of squares of a sequence against itself vanishes. -/
theorem residualSumSquares_self (xs : List ℚ) : residualSumSquares xs xs = 0 := by
  unfold residualSumSquares
  rw [zip_self_map, List.map_map]
  apply List.sum_eq_zero
  intro x hx
  obtain ⟨a, ha, rfl⟩ := List.mem_map.mp hx
  simp

/-- A constant sequence has zero total sum of squares: its mean is the
constant itself. -/
theorem totalSumSquares_replicate (c : ℚ) (n : ℕ) (hn : 0 < n) :
    totalSumSquares (List.replicate n c) = 0 := by
  unfold totalSumSquares
  apply List.sum_eq_zero
  intro x hx
  obtain ⟨a, ha, rfl⟩ := List.mem_map.mp hx
  rw [List.eq_of_mem_replicate ha, List.sum_replicate, List.length_replicate, nsmul_eq_mul,
    mul_div_cancel_left₀ c (Nat.cast_ne_zero.mpr (Nat.pos_iff_ne_zero.mp hn))]
  simp

/-- A model predicting every target exactly has zero residual sum of
squares. -/
theorem modelRSS_of_perfect (m : LinearRegression) (data : Dataset)
    (hperf : ∀ p ∈ data, predictValue m.coefficients p.getFeatureVector = p.getTarget) :
    modelRSS m data = 0 := by
  unfold modelRSS
  apply List.sum_eq_zero
  intro x hx
  obtain ⟨p, hp, rfl⟩ := List.mem_map.mp hx
  rw [hperf p hp]
  simp

/-- C8: on a trained model and a non-empty evaluation set, R² is
`1 − RSS/TSS` with TSS taken against the mean of the supplied set's own
actual values; when TSS is exactly zero the result is exactly 1 regardless
of the predictions; when every prediction equals its actual value the
result is exactly 1. The last two conjuncts state the same convention for
the Evaluator's sequence-level `calculateR2`. -/
theorem rsquared_spec :
    (∀ (m : LinearRegression) (data : Dataset), m.isTrained = true → data ≠ [] →
      calculateRSquared m data =
        if modelTSS data = 0 then .ok 1 else .ok (1 - modelRSS m data / modelTSS data))
  ∧ (∀ (m : LinearRegression) (data : Dataset), m.isTrained = true → data ≠ [] →
      modelTSS data = 0 → calculateRSquared m data = .ok 1)
  ∧ (∀ (m : LinearRegression) (data : Dataset), m.isTrained = true → data ≠ [] →
      (∀ p ∈ data, predictValue m.coefficients p.getFeatureVector = p.getTarget) →
      calculateRSquared m data = .ok 1)
  ∧ (∀ xs : List ℚ, xs ≠ [] → calculateR2 xs xs = .ok 1)
  ∧ (∀ (c : ℚ) (n : ℕ) (preds : List ℚ), 0 < n → preds.length = n →
      calculateR2 (List.replicate n c) preds = .ok 1) := by
  refine ⟨?_, ?_, ?_, ?_, ?_⟩
  · intro m data h _; simp [calculateRSquared, h]
  · intro m data h _ htss; simp [calculateRSquared, h, htss]
  · intro m data h _ hperf
    simp [calculateRSquared, h, modelRSS_of_perfect m data hperf]
  · intro xs hne
    simp [calculateR2, hne, residualSumSquares_self]
  · intro c n preds hn hlen
    have hn0 : n ≠ 0 := Nat.pos_iff_ne_zero.mp hn
    simp [calculateR2, hlen, hn0, totalSumSquares_replicate c n hn]

/-- C8 witness: the theorem applied to a concrete model and sets. -/
theorem rsquared_spec_witness :
    calculateRSquared ⟨[1, 0, 0, 0, 0, 0], true, 0, 0, 0⟩ [⟨2, 0, 0, 0, 0, 0, 2⟩] = .ok 1
  ∧ calculateR2 [1, 2] [1, 2] = .ok 1 :=
  ⟨rsquared_spec.2.2.1 ⟨[1, 0, 0, 0, 0, 0], true, 0, 0, 0⟩ [⟨2, 0, 0, 0, 0, 0, 2⟩] rfl
      (by simp)
      (by
        intro p hp
        rw [List.mem_singleton] at hp
        subst hp
        show predictValue [1, 0, 0, 0, 0, 0] [2, 0, 0, 0, 0, 0] = 2
        have hr : List.range 6 = [0, 1, 2, 3, 4, 5] := rfl
        simp [predictValue, hr]),
   rsquared_spec.2.2.2.1 [1, 2] (by simp)⟩

/-- The MAPE accumulation pass computes exactly the percentage-error sum
and entry count over the pairs whose actual value is non-zero. -/
theorem mapeAcc_eq (actual predicted : List ℚ) :
    mapeAcc actual predicted =
      ((((actual.zip predicted).filter (fun q => !decide (q.1 = 0))).map
          (fun q => |(q.1 - q.2) / q.1| * 100)).sum,
       ((actual.zip predicted).filter (fun q => !decide (q.1 = 0))).length) := by
  unfold mapeAcc
  suffices h : ∀ (L : List (ℚ × ℚ)) (s : ℚ) (c : ℕ),
      L.foldl
        (fun acc q => if q.1 ≠ 0 then (acc.1 + |(q.1 - q.2) / q.1| * 100, acc.2 + 1) else acc)
        (s, c)
        = (s + ((L.filter (fun q => !decide (q.1 = 0))).map
            (fun q => |(q.1 - q.2) / q.1| * 100)).sum,
           c + (L.filter (fun q => !decide (q.1 = 0))).length) by
    rw [h (actual.zip predicted) 0 0]
    simp
  intro L
  induction L with
  | nil => intro s c; simp
  | cons q L ih =>
    intro s c
    rw [List.foldl_cons, List.filter_cons]
    by_cases hq : q.1 = 0
    · have hdec : (!decide (q.1 = 0)) = false := by simp [hq]
      rw [hdec, if_neg (fun hcon => hcon hq)]
      simp only [Bool.false_eq_true, if_false]
      exact ih s c
    · have hdec : (!decide (q.1 = 0)) = true := by simp [hq]
      rw [hdec, if_pos hq]
      simp only [if_true]
      rw [ih, List.map_cons, List.sum_cons, List.length_cons, Prod.mk.injEq]
      constructor
      · ring
      · omega

/-- C9: on equal-length non-empty sequences, MAPE is the mean of
`|(actual − predicted)/actual| · 100` over exactly the entries with
`actual ≠ 0` (excluded entries contribute to neither the sum nor the
count), and when every actual value is 0 the result is exactly 0. -/
theorem calculateMAPE_spec :
    (∀ (actual predicted : List ℚ), actual.length = predicted.length → actual ≠ [] →
      calculateMAPE actual predicted =
        .ok (if 0 < ((actual.zip predicted).filter (fun q => !decide (q.1 = 0))).length
          then ((((actual.zip predicted).filter (fun q => !decide (q.1 = 0))).map
              (fun q => |(q.1 - q.2) / q.1| * 100)).sum)
            / (((actual.zip predicted).filter (fun q => !decide (q.1 = 0))).length : ℚ)
          else 0))
  ∧ (∀ (actual predicted : List ℚ), actual.length = predicted.length → actual ≠ [] →
      (∀ x ∈ actual, x = 0) → calculateMAPE actual predicted = .ok 0) := by
  constructor
  · intro actual predicted hlen hne
    simp [calculateMAPE, hlen, hne, mapeAcc_eq]
  · intro actual predicted hlen hne hzero
    have hfil : (actual.zip predicted).filter (fun q => !decide (q.1 = 0)) = [] := by
      rw [List.filter_eq_nil_iff]
      rintro ⟨a, b⟩ hq
      have ha := (List.of_mem_zip hq).1
      simp [hzero a ha]
    simp [calculateMAPE, hlen, hne, mapeAcc_eq, hfil]

/-- C9 witness: the theorem applied to concrete sequences, including one
whose actual values are all zero. -/
theorem calculateMAPE_spec_witness :
    calculateMAPE [0, 0] [3, 4] = .ok 0 :=
  calculateMAPE_spec.2 [0, 0] [3, 4] rfl (by simp) (by
    intro x hx
    rcases List.mem_pair.mp hx with h | h <;> exact h)

/-- The push-back fold of `crossValidate` collects exactly the successful
per-fold evaluations, in fold order. -/
theorem foldRMSEs_eq_recordedRMSEs (foldEval : Dataset → Dataset → Option ℚ)
    (data : Dataset) (folds : ℕ) :
    foldRMSEs foldEval data folds = recordedRMSEs foldEval data folds := by
  unfold foldRMSEs recordedRMSEs
  suffices h : ∀ (L : List ℕ) (init : List ℚ),
      L.foldl (fun acc fold =>
        match foldEval (trainSetOf data folds fold) (validSet data folds fold) with
        | some r => acc ++ [r]
        | none => acc) init
      = init ++ L.filterMap
          (fun fold => foldEval (trainSetOf data folds fold) (validSet data folds fold)) by
    rw [h (List.range folds) []]
    simp
  intro L
  induction L with
  | nil => intro init; simp
  | cons x L ih =>
    intro init
    rw [List.foldl_cons, List.filterMap_cons]
    cases hg : foldEval (trainSetOf data folds x) (validSet data folds x) with
    | none => rw [ih]
    | some r => rw [ih]; simp

/-- The mean squared error — the radicand of every recorded fold RMSE — is
non-negative. -/
theorem calculateMSE_nonneg (m : LinearRegression) (data : Dataset) :
    0 ≤ calculateMSE m data := by
  unfold calculateMSE
  apply div_nonneg
  · apply List.sum_nonneg
    intro x hx
    obtain ⟨p, hp, rfl⟩ := List.mem_map.mp hx
    positivity
  · exact Nat.cast_nonneg _

/-- C2 counterexample: on a dataset smaller than the fold count the source
throws `std::invalid_argument` — an observable error condition beyond the
zero-successful-folds sentinel the claim allows. -/
theorem crossValidate_throws_cex :
    crossValidate (fun _ _ => none) [] 1 = .error .TooFewExamples := rfl

/-- C2 (amended): provided the dataset has at least `folds` examples, the
only failure surface of `crossValidate` is the zero-successful-folds case:
per-fold failures are swallowed (they contribute no recorded value), the
result is the arithmetic mean of the recorded per-fold values — `-1.0`
when none was recorded — and the sentinel is distinguishable from every
legitimate mean of RMSEs, which are non-negative (their radicand, the mean
squared error, is non-negative). -/
theorem crossValidate_spec (foldEval : Dataset → Dataset → Option ℚ) (data : Dataset)
    (folds : ℕ) (h : folds ≤ data.length) :
    (crossValidate foldEval data folds =
        .ok (if recordedRMSEs foldEval data folds = [] then -1
          else (recordedRMSEs foldEval data folds).sum /
            ((recordedRMSEs foldEval data folds).length : ℚ)))
  ∧ ((∀ r ∈ recordedRMSEs foldEval data folds, 0 ≤ r) →
      recordedRMSEs foldEval data folds ≠ [] →
      0 ≤ (recordedRMSEs foldEval data folds).sum /
        ((recordedRMSEs foldEval data folds).length : ℚ))
  ∧ ((-1 : ℚ) < 0)
  ∧ (∀ (m : LinearRegression) (d : Dataset), 0 ≤ calculateMSE m d) := by
  refine ⟨?_, ?_, by norm_num, calculateMSE_nonneg⟩
  · unfold crossValidate
    rw [if_neg (Nat.not_lt.mpr h), foldRMSEs_eq_recordedRMSEs]
    by_cases hrec : recordedRMSEs foldEval data folds = []
    · simp [hrec]
    · simp [hrec]
  · intro hpos hne
    exact div_nonneg (List.sum_nonneg hpos) (Nat.cast_nonneg _)

/-- C2 witness: the amended theorem applied to a concrete evaluator and a
dataset large enough for its fold count. -/
theorem crossValidate_spec_witness :
    crossValidate (fun _ _ => some 2) (List.replicate 2 (default : DataPoint)) 2 =
      .ok (if recordedRMSEs (fun _ _ => some 2) (List.replicate 2 (default : DataPoint)) 2 = []
        then -1
        else (recordedRMSEs (fun _ _ => some 2) (List.replicate 2 (default : DataPoint)) 2).sum /
          ((recordedRMSEs (fun _ _ => some 2) (List.replicate 2 (default : DataPoint)) 2).length
            : ℚ)) :=
  (crossValidate_spec (fun _ _ => some 2) (List.replicate 2 (default : DataPoint)) 2
    (by decide)).1

/-- C1 counterexample: with 23 examples and `k = 5` the fold size is
`⌊23/5⌋ = 4`, so fold 0 has 4 members — not 5 — and the last fold has 7 —
not 3. -/
theorem crossValidate_fold_partition_cex :
    (validSet (List.replicate 23 (default : DataPoint)) 5 0).length = 4
  ∧ (validSet (List.replicate 23 (default : DataPoint)) 5 4).length = 7
  ∧ ¬ ((validSet (List.replicate 23 (default : DataPoint)) 5 0).length = 5
      ∧ (validSet (List.replicate 23 (default : DataPoint)) 5 4).length = 3) := by
  refine ⟨?_, ?_, ?_⟩ <;> decide

/-- C1 (amended): with 25 examples and `k = 5`, the fold loop partitions
the index range into 5 contiguous, non-overlapping folds of 5 indices each
whose concatenation in order is exactly `0, …, 24`; with 23 examples the
fold size is `⌊23/5⌋ = 4`, folds 0–3 have 4 members each, the final fold
absorbs the remainder with 7 members, and the concatenation in order is
exactly `0, …, 22` — no overlap and no omission, boundaries summing
to 23. -/
theorem crossValidate_fold_partition (d25 d23 : Dataset)
    (h25 : d25.length = 25) (h23 : d23.length = 23) :
    ((∀ f, f < 5 → (validSet d25 5 f).length = 5)
      ∧ ((List.range 5).map
          (fun f => (List.range 25).filter (fun i => isValidIdx 25 5 f i))).flatten
          = List.range 25)
  ∧ ((validSet d23 5 0).length = 4 ∧ (validSet d23 5 1).length = 4
      ∧ (validSet d23 5 2).length = 4 ∧ (validSet d23 5 3).length = 4
      ∧ (validSet d23 5 4).length = 7
      ∧ (validSet d23 5 0).length + (validSet d23 5 1).length + (validSet d23 5 2).length
          + (validSet d23 5 3).length + (validSet d23 5 4).length = 23
      ∧ ((List.range 5).map
          (fun f => (List.range 23).filter (fun i => isValidIdx 23 5 f i))).flatten
          = List.range 23) := by
  constructor
  · constructor
    · intro f hf
      simp only [validSet, List.length_map, h25]
      have hall : ∀ g, g < 5 →
          ((List.range 25).filter (fun i => isValidIdx 25 5 g i)).length = 5 := by decide
      exact hall f hf
    · decide
  · refine ⟨?_, ?_, ?_, ?_, ?_, ?_, ?_⟩ <;>
      first
      | (simp only [validSet, List.length_map, h23]; decide)
      | decide

/-- C1 witness: the amended theorem applied to concrete 25- and 23-example
datasets. -/
theorem crossValidate_fold_partition_witness :
    (validSet (List.replicate 25 (default : DataPoint)) 5 2).length = 5
  ∧ (validSet (List.replicate 23 (default : DataPoint)) 5 3).length = 4 :=
  ⟨(crossValidate_fold_partition (List.replicate 25 (default : DataPoint))
      (List.replicate 23 (default : DataPoint)) rfl rfl).1.1 2 (by decide),
   (crossValidate_fold_partition (List.replicate 25 (default : DataPoint))
      (List.replicate 23 (default : DataPoint)) rfl rfl).2.2.2.2.1⟩

end PartB
